import Mathlib

/-!
Verification development for the DocChainValidator repository.

The Python sources are shallowly embedded as executable Lean definitions:

* `sha256HexOfString` models `hashlib.sha256(s.encode('utf-8')).hexdigest()`
  (a full executable SHA-256 over byte lists, checked against the standard
  test vectors below);
* `generate_dp_page_signature` embeds `signature.py`;
* `Block`, `calculate_hash`, `proof_of_work`, `is_new_block_valid`,
  `add_block`, `create_genesis_block`, `is_chain_valid`, `rewind_to_index`
  embed `blockchain.py` (time is passed explicitly as the `now` argument,
  and the unbounded proof-of-work loop takes a fuel bound whose exhaustion
  models non-termination);
* `send_message` / `receive_message` embed `network/protocol.py` at the
  byte level, with `json.loads` abstracted as a `loads` parameter;
* `LockState` and its transitions embed the network mining lock of
  `network/node.py` and `network/connection.py`;
* `bindKeywordCall` models CPython keyword-argument binding, used for the
  mining-worker call of `Blockchain.add_block`.

External library primitives that cannot be reproduced (RSA-PSS signature
verification, PEM key parsing, `json.loads`) are abstracted as explicit
function parameters.
-/

/-! ## SHA-256 over byte lists (model of hashlib.sha256) -/

def M32 : Nat := 4294967296

def rotr32 (x n : Nat) : Nat :=
  ((x >>> n) ||| (x <<< (32 - n))) % M32

def shaK : List Nat :=
  [1116352408, 1899447441, 3049323471, 3921009573, 961987163, 1508970993,
   2453635748, 2870763221, 3624381080, 310598401, 607225278, 1426881987,
   1925078388, 2162078206, 2614888103, 3248222580, 3835390401, 4022224774,
   264347078, 604807628, 770255983, 1249150122, 1555081692, 1996064986,
   2554220882, 2821834349, 2952996808, 3210313671, 3336571891, 3584528711,
   113926993, 338241895, 666307205, 773529912, 1294757372, 1396182291,
   1695183700, 1986661051, 2177026350, 2456956037, 2730485921, 2820302411,
   3259730800, 3345764771, 3516065817, 3600352804, 4094571909, 275423344,
   430227734, 506948616, 659060556, 883997877, 958139571, 1322822218,
   1537002063, 1747873779, 1955562222, 2024104815, 2227730452, 2361852424,
   2428436474, 2756734187, 3204031479, 3329325298]

def shaH0 : List Nat :=
  [1779033703, 3144134277, 1013904242, 2773480762, 1359893119, 2600822924,
   528734635, 1541459225]

def be8 (n : Nat) : List Nat :=
  [n / 2^56 % 256, n / 2^48 % 256, n / 2^40 % 256, n / 2^32 % 256,
   n / 2^24 % 256, n / 2^16 % 256, n / 2^8 % 256, n % 256]

def word4 (a b c d : Nat) : Nat := a * 2^24 + b * 2^16 + c * 2^8 + d

def bytesToWords : List Nat → List Nat
  | a :: b :: c :: d :: rest => word4 a b c d :: bytesToWords rest
  | _ => []

def shaPad (msg : List Nat) : List Nat :=
  let l := msg.length
  let padZeros := (55 + 64 - l % 64) % 64
  msg ++ [128] ++ List.replicate padZeros 0 ++ be8 (8 * l)

def chunk64F : Nat → List Nat → List (List Nat)
  | _, [] => []
  | 0, _ => []
  | fuel+1, l => l.take 64 :: chunk64F fuel (l.drop 64)

def chunk64 (l : List Nat) : List (List Nat) := chunk64F l.length l

def extendW (w : List Nat) : Nat → List Nat
  | 0 => w
  | n+1 =>
    let l := w.length
    let w15 := w.getD (l - 15) 0
    let w2 := w.getD (l - 2) 0
    let w16 := w.getD (l - 16) 0
    let w7 := w.getD (l - 7) 0
    let s0 := (rotr32 w15 7) ^^^ (rotr32 w15 18) ^^^ (w15 >>> 3)
    let s1 := (rotr32 w2 17) ^^^ (rotr32 w2 19) ^^^ (w2 >>> 10)
    extendW (w ++ [(w16 + s0 + w7 + s1) % M32]) n

structure Sha8 where
  a : Nat
  b : Nat
  c : Nat
  d : Nat
  e : Nat
  f : Nat
  g : Nat
  h : Nat

def shaRound (s : Sha8) (kw : Nat × Nat) : Sha8 :=
  let s1 := (rotr32 s.e 6) ^^^ (rotr32 s.e 11) ^^^ (rotr32 s.e 25)
  let ch := (s.e &&& s.f) ^^^ ((s.e ^^^ 4294967295) &&& s.g)
  let temp1 := (s.h + s1 + ch + kw.1 + kw.2) % M32
  let s0 := (rotr32 s.a 2) ^^^ (rotr32 s.a 13) ^^^ (rotr32 s.a 22)
  let maj := (s.a &&& s.b) ^^^ (s.a &&& s.c) ^^^ (s.b &&& s.c)
  let temp2 := (s0 + maj) % M32
  ⟨(temp1 + temp2) % M32, s.a, s.b, s.c, (s.d + temp1) % M32, s.e, s.f, s.g⟩

def shaCompress (hs : List Nat) (chunk : List Nat) : List Nat :=
  let w := extendW (bytesToWords chunk) 48
  let init : Sha8 :=
    ⟨hs.getD 0 0, hs.getD 1 0, hs.getD 2 0, hs.getD 3 0,
     hs.getD 4 0, hs.getD 5 0, hs.getD 6 0, hs.getD 7 0⟩
  let s := (shaK.zip w).foldl shaRound init
  [(hs.getD 0 0 + s.a) % M32, (hs.getD 1 0 + s.b) % M32,
   (hs.getD 2 0 + s.c) % M32, (hs.getD 3 0 + s.d) % M32,
   (hs.getD 4 0 + s.e) % M32, (hs.getD 5 0 + s.f) % M32,
   (hs.getD 6 0 + s.g) % M32, (hs.getD 7 0 + s.h) % M32]

def be4 (n : Nat) : List Nat :=
  [n / 2^24 % 256, n / 2^16 % 256, n / 2^8 % 256, n % 256]

def sha256Bytes (msg : List Nat) : List Nat :=
  let final := (chunk64 (shaPad msg)).foldl shaCompress shaH0
  final.flatMap be4

def hexDigit (n : Nat) : Char :=
  if n = 0 then '0' else if n = 1 then '1' else if n = 2 then '2'
  else if n = 3 then '3' else if n = 4 then '4' else if n = 5 then '5'
  else if n = 6 then '6' else if n = 7 then '7' else if n = 8 then '8'
  else if n = 9 then '9' else if n = 10 then 'a' else if n = 11 then 'b'
  else if n = 12 then 'c' else if n = 13 then 'd' else if n = 14 then 'e'
  else 'f'

def hexOfBytes (bs : List Nat) : String :=
  String.mk (bs.flatMap (fun b => [hexDigit (b / 16), hexDigit (b % 16)]))

/-- Model of `str.encode('utf-8')`: standard UTF-8 encoding of the code points. -/
def utf8Char (c : Char) : List Nat :=
  let n := c.toNat
  if n < 128 then [n]
  else if n < 2048 then [192 ||| (n >>> 6), 128 ||| (n &&& 63)]
  else if n < 65536 then
    [224 ||| (n >>> 12), 128 ||| ((n >>> 6) &&& 63), 128 ||| (n &&& 63)]
  else
    [240 ||| (n >>> 18), 128 ||| ((n >>> 12) &&& 63),
     128 ||| ((n >>> 6) &&& 63), 128 ||| (n &&& 63)]

def utf8Encode (s : String) : List Nat := s.data.flatMap utf8Char

/-- Model of `hashlib.sha256(s.encode('utf-8')).hexdigest()`. -/
def sha256HexOfString (s : String) : String :=
  hexOfBytes (sha256Bytes (utf8Encode s))

/-! ## Python JSON values and json.dumps (the shapes used by the program) -/

inductive JVal where
  | jstr (s : String)
  | jint (n : Int)
  | jbool (b : Bool)
  | jnull
  | jarr (items : List JVal)
  | jobj (fields : List (String × JVal))

def hex4 (n : Nat) : String :=
  String.mk [hexDigit (n / 4096 % 16), hexDigit (n / 256 % 16),
             hexDigit (n / 16 % 16), hexDigit (n % 16)]

/-- Model of the character escaping of `json.dumps` (default `ensure_ascii=True`). -/
def pyJsonEscapeChar (c : Char) : String :=
  let n := c.toNat
  if c = '"' then "\\\""
  else if c = '\\' then "\\\\"
  else if c = '\n' then "\\n"
  else if c = '\r' then "\\r"
  else if c = '\t' then "\\t"
  else if n = 8 then "\\b"
  else if n = 12 then "\\f"
  else if n < 32 then "\\u" ++ hex4 n
  else if n < 128 then String.mk [c]
  else if n < 65536 then "\\u" ++ hex4 n
  else
    let m := n - 65536
    "\\u" ++ hex4 (55296 + m / 1024) ++ "\\u" ++ hex4 (56320 + m % 1024)

def concatStrings : List String → String
  | [] => ""
  | s :: rest => s ++ concatStrings rest

def pyJsonQuote (s : String) : String :=
  "\"" ++ concatStrings (s.data.map pyJsonEscapeChar) ++ "\""

def joinSep (sep : String) : List String → String
  | [] => ""
  | [x] => x
  | x :: rest => x ++ sep ++ joinSep sep rest

/-- Python's `<` on strings: lexicographic comparison of code points. -/
def charListLt : List Char → List Char → Bool
  | [], [] => false
  | [], _ :: _ => true
  | _ :: _, [] => false
  | a :: as, b :: bs =>
    if a.toNat < b.toNat then true
    else if b.toNat < a.toNat then false
    else charListLt as bs

def pyStrLt (a b : String) : Bool := charListLt a.data b.data

def insertFieldSorted (p : String × String) :
    List (String × String) → List (String × String)
  | [] => [p]
  | q :: rest =>
    if pyStrLt p.1 q.1 then p :: q :: rest else q :: insertFieldSorted p rest

def sortFieldsByKey (l : List (String × String)) : List (String × String) :=
  l.foldr insertFieldSorted []

mutual

/-- Model of `json.dumps` with separators `(itemSep, kvSep)` and the given
`sort_keys` flag (object keys sorted by the code-point order Python uses). -/
def pyJsonDumpV (itemSep kvSep : String) (sortKeys : Bool) : JVal → String
  | .jstr s => pyJsonQuote s
  | .jint n => toString n
  | .jbool b => if b then "true" else "false"
  | .jnull => "null"
  | .jarr items => "[" ++ joinSep itemSep (pyJsonDumpItems itemSep kvSep sortKeys items) ++ "]"
  | .jobj fields =>
    let rendered := pyJsonDumpFields itemSep kvSep sortKeys fields
    let ordered := if sortKeys then sortFieldsByKey rendered else rendered
    "\x7b" ++ joinSep itemSep (ordered.map (fun p => pyJsonQuote p.1 ++ kvSep ++ p.2)) ++ "\x7d"

def pyJsonDumpItems (itemSep kvSep : String) (sortKeys : Bool) : List JVal → List String
  | [] => []
  | v :: rest =>
    pyJsonDumpV itemSep kvSep sortKeys v :: pyJsonDumpItems itemSep kvSep sortKeys rest

def pyJsonDumpFields (itemSep kvSep : String) (sortKeys : Bool) :
    List (String × JVal) → List (String × String)
  | [] => []
  | (k, v) :: rest =>
    (k, pyJsonDumpV itemSep kvSep sortKeys v) :: pyJsonDumpFields itemSep kvSep sortKeys rest

end

/-- Model of `json.dumps(x, sort_keys=True, separators=(',', ':'))`. -/
def pyJsonDumpSortedCompact (v : JVal) : String := pyJsonDumpV "," ":" true v

/-- Model of `json.dumps(x)` with its default separators `(', ', ': ')`. -/
def pyJsonDumpDefault (v : JVal) : String := pyJsonDumpV ", " ": " false v

/-! ## signature.py: the dynamic-programming page digest -/

def DP_SEED_CONSTANT : String :=
  "9ca57ab0545f346b422ebf7fe6be7b9a5e11f214a1e575bfc0db081f4b5fa0ec"

/-- Model of the Python list comprehension
`[page_text[i:i+20] for i in range(0, len(page_text), 20)]`. -/
def pageChunksPy (s : List Char) : List (List Char) :=
  ((List.range ((s.length + 19) / 20)).map (fun k => k * 20)).map
    (fun i => (s.drop i).take 20)

/-- Embedding of `generate_dp_page_signature` from `signature.py`. -/
def generate_dp_page_signature (page_text doc_title : String) (page_number : Int) :
    String :=
  let page_chunks := pageChunksPy page_text.data
  if page_text.data.length = 0 then
    sha256HexOfString
      (doc_title ++ toString page_number ++ DP_SEED_CONSTANT ++ "EMPTY_PAGE_PLACEHOLDER")
  else
    let initial :=
      sha256HexOfString (doc_title ++ toString page_number ++ DP_SEED_CONSTANT)
    page_chunks.foldl (fun h c => sha256HexOfString (String.mk c ++ h)) initial

/-- Chunking as the specification words it: successive 20-code-unit chunks,
taken from the front, the last one possibly shorter (fuel-indexed so that it
computes; the fuel `l.length` always suffices). -/
def specChunksF : Nat → List Char → List (List Char)
  | _, [] => []
  | 0, _ => []
  | fuel+1, l => l.take 20 :: specChunksF fuel (l.drop 20)

def specChunks (l : List Char) : List (List Char) := specChunksF l.length l

/-- The page digest exactly as the specification describes it. -/
def specPageDigest (content title : String) (page_number : Int) : String :=
  if content.data.length = 0 then
    sha256HexOfString
      (title ++ toString page_number ++ DP_SEED_CONSTANT ++ "EMPTY_PAGE_PLACEHOLDER")
  else
    (specChunks content.data).foldl (fun h c => sha256HexOfString (String.mk c ++ h))
      (sha256HexOfString (title ++ toString page_number ++ DP_SEED_CONSTANT))

/-! ## blockchain.py: blocks, hashing, validation, chain operations -/

/-- Block data is either a JSON object (a Python dict) or a plain string,
matching the `Union[Dict[str, Any], str]` annotation in `blockchain.py`. -/
inductive BlockData where
  | bstr (s : String)
  | bdict (fields : List (String × JVal))

structure Block where
  index : Int
  previous_hash : Option String
  timestamp : Int
  version : Int
  data : BlockData
  signature : String
  nonce : Int
  current_hash : Option String

/-- Model of Python `str(x)` on an `Optional[str]` value: `str(None)` is the
string "None". -/
def pyStrOptStr : Option String → String
  | none => "None"
  | some s => s

/-- Embedding of `Block.calculate_hash`: double SHA-256 of the concatenated
field string, dictionaries serialized with `sort_keys=True` and compact
separators. -/
def calculate_hash (b : Block) : String :=
  let data_str :=
    match b.data with
    | .bdict fields => pyJsonDumpSortedCompact (.jobj fields)
    | .bstr s => s
  let block_content :=
    toString b.index ++ pyStrOptStr b.previous_hash ++ toString b.timestamp ++
    toString b.version ++ data_str ++ b.signature ++ toString b.nonce
  hexOfBytes (sha256Bytes (sha256Bytes (utf8Encode block_content)))

/-- Model of Python `str.startswith`. -/
def pyStartsWith (s p : String) : Bool := p.data.isPrefixOf s.data

/-- The difficulty target `'0' * difficulty`. -/
def diffString (difficulty : Nat) : String :=
  String.mk (List.replicate difficulty '0')

/-- The proof-of-work search from `Blockchain._proof_of_work`, trying nonces
`k, k+1, ...`; the fuel bounds the unbounded Python `while True` loop, and
`none` models a search that has not finished within the bound. -/
def powFrom (difficulty : Nat) (b : Block) : Nat → Nat → Option Nat
  | 0, _ => none
  | fuel+1, k =>
    if pyStartsWith (calculate_hash { b with nonce := (k : Int) }) (diffString difficulty)
    then some k
    else powFrom difficulty b fuel (k+1)

def proof_of_work (difficulty : Nat) (b : Block) (fuel : Nat) : Option Nat :=
  powFrom difficulty b fuel 0

/-- Abstraction of the external `cryptography` library: PEM public-key parsing
(`None` models a parse exception) and RSA-PSS signature verification. -/
structure CryptoEnv where
  parseKey : String → Option String
  verify : String → String → String → Bool

/-- The Python exceptions that can escape the embedded code paths. -/
inductive PyErr where
  | attributeError
  | typeError
deriving DecidableEq

/-- Model of `dict.get` / key lookup on the insertion-ordered field list. -/
def dictGet (fields : List (String × JVal)) (k : String) : Option JVal :=
  (fields.find? (fun p => p.1 == k)).map (fun p => p.2)

/-- Python truthiness of a JSON value (`if not x`). -/
def jvalFalsy : JVal → Bool
  | .jstr s => s.data.isEmpty
  | .jint n => n == 0
  | .jbool b => !b
  | .jnull => true
  | .jarr items => items.isEmpty
  | .jobj fields => fields.isEmpty

/-- The body of the `try` block of `is_new_block_valid`: key loading, digest
recomputation and signature verification; any exception raised inside it is
caught by the `except` clause and yields `False`. -/
def tryPageVerify (env : CryptoEnv) (fields : List (String × JVal))
    (pubVal : JVal) (sig : String) : Bool :=
  match pubVal with
  | .jstr pem =>
    match env.parseKey pem with
    | none => false
    | some key =>
      match dictGet fields "content", dictGet fields "title", dictGet fields "page" with
      | some (.jstr content), some (.jstr title), some (.jint page) =>
        env.verify (generate_dp_page_signature content title (page + 1)) sig key
      | _, _, _ => false
  | _ => false

/-- Embedding of `Blockchain.is_new_block_valid`; `now` is the value of
`int(time.time())` at check time.  The `.error` results model uncaught Python
exceptions: `data.get('public_key')` raises `AttributeError` when `data` is a
plain string, since that lookup sits outside the `try` block. -/
def is_new_block_valid (env : CryptoEnv) (difficulty : Nat) (now : Int)
    (nb pb : Block) : Except PyErr Bool :=
  if nb.index ≠ pb.index + 1 then .ok false
  else if nb.previous_hash ≠ pb.current_hash then .ok false
  else if nb.current_hash ≠ some (calculate_hash nb) then .ok false
  else
    match nb.current_hash with
    | none => .error .attributeError
    | some h =>
      if ¬ pyStartsWith h (diffString difficulty) then .ok false
      else if nb.timestamp > now + 60 then .ok false
      else if nb.timestamp < pb.timestamp then .ok false
      else
        match nb.data with
        | .bstr _ => .error .attributeError
        | .bdict fields =>
          match dictGet fields "public_key" with
          | none => .ok false
          | some v =>
            if jvalFalsy v then .ok false
            else .ok (tryPageVerify env fields v nb.signature)

/-- Equality of JSON values used as Python dict keys.  The block titles the
program indexes under are hashable scalars; across different scalar
constructors Python equality is false. -/
def jvalKeyEq : JVal → JVal → Bool
  | .jstr a, .jstr b => a == b
  | .jint a, .jint b => a == b
  | .jbool a, .jbool b => a == b
  | .jnull, .jnull => true
  | _, _ => false

/-- Insertion sort of an index bucket by block index, modelling
`self.doc_index[title].sort(key=lambda b: b.index)`. -/
def insertByIdx (b : Block) : List Block → List Block
  | [] => [b]
  | x :: rest => if b.index < x.index then b :: x :: rest else x :: insertByIdx b rest

def sortByIdx (l : List Block) : List Block := l.foldr insertByIdx []

def indexInsert (key : JVal) (b : Block) :
    List (JVal × List Block) → List (JVal × List Block)
  | [] => [(key, sortByIdx [b])]
  | (k, bs) :: rest =>
    if jvalKeyEq k key then (k, sortByIdx (bs ++ [b])) :: rest
    else (k, bs) :: indexInsert key b rest

/-- The in-memory state of a `Blockchain` object together with the persisted
chain file (`saved` is the content last written by `save_chain`). -/
structure ChainState where
  chain : List Block
  doc_index : List (JVal × List Block)
  saved : Option (List Block)

/-- Embedding of `Blockchain.add_block_to_index`: blocks whose data is a
non-empty dict carrying a `title` key are appended to that title's bucket and
the bucket re-sorted by index; every call site in the embedded code paths
guards this with `isinstance(block.data, dict)`. -/
def add_block_to_index (st : ChainState) (b : Block) : ChainState :=
  match b.data with
  | .bstr _ => st
  | .bdict fields =>
    if fields.isEmpty then st
    else
      match dictGet fields "title" with
      | none => st
      | some t => { st with doc_index := indexInsert t b st.doc_index }

/-- Lookup of a string title among the (hashable) keys of the document
index, Python `title in self.doc_index` followed by `self.doc_index[title]`. -/
def indexLookup (title : String) : List (JVal × List Block) → List Block
  | [] => []
  | (k, bs) :: rest => if jvalKeyEq k (.jstr title) then bs else indexLookup title rest

/-- Embedding of `Blockchain.get_blocks_by_title`. -/
def get_blocks_by_title (st : ChainState) (title : String) : List Block :=
  indexLookup title st.doc_index

/-- Embedding of `Blockchain.get_latest_block`. -/
def get_latest_block (st : ChainState) : Option Block := st.chain.getLast?

/-- The candidate block `add_block` constructs before mining. -/
def new_block_base (latest : Block) (now : Int) (data : BlockData)
    (signature : String) : Block :=
  { index := latest.index + 1, previous_hash := latest.current_hash,
    timestamp := now, version := 1, data := data, signature := signature,
    nonce := 0, current_hash := none }

/-- The candidate block after mining: the found nonce is stored and
`current_hash` set to the recomputed hash. -/
def mined_block (latest : Block) (now : Int) (data : BlockData)
    (signature : String) (nonce : Nat) : Block :=
  let nb1 := { new_block_base latest now data signature with nonce := (nonce : Int) }
  { nb1 with current_hash := some (calculate_hash nb1) }

/-- Embedding of `Blockchain.add_block`.  `now` is `int(time.time())` at call
time and `fuel` bounds the proof-of-work loop; the outer `none` models a
proof-of-work search that never terminates.  Inside, `.ok (some b, st')` is a
successful append, `.ok (none, st)` is a `return None`, and `.error` is an
uncaught exception from validation. -/
def add_block (env : CryptoEnv) (difficulty : Nat) (st : ChainState) (now : Int)
    (fuel : Nat) (data : BlockData) (signature : String) :
    Option (Except PyErr (Option Block × ChainState)) :=
  match get_latest_block st with
  | none => some (.ok (none, st))
  | some latest =>
    match data with
    | .bstr _ => some (.ok (none, st))
    | .bdict _ =>
      match proof_of_work difficulty (new_block_base latest now data signature) fuel with
      | none => none
      | some nonce =>
        some (match is_new_block_valid env difficulty now
            (mined_block latest now data signature nonce) latest with
          | .error e => .error e
          | .ok true =>
            .ok (some (mined_block latest now data signature nonce),
                 add_block_to_index
                   { st with chain := st.chain ++ [mined_block latest now data signature nonce] }
                   (mined_block latest now data signature nonce))
          | .ok false => .ok (none, st))

/-- Embedding of `Blockchain._create_genesis_block`: `now` is
`int(time.time())` at creation time. -/
def create_genesis_block (difficulty : Nat) (now : Int) (fuel : Nat) :
    Option Block :=
  let g0 : Block :=
    { index := 0, previous_hash := some "0", timestamp := now, version := 1,
      data := .bdict [("message", .jstr "Genesis Block")],
      signature := "N/A_GENESIS_SIGNATURE", nonce := 0, current_hash := none }
  (proof_of_work difficulty g0 fuel).map
    (fun n =>
      let g1 := { g0 with nonce := (n : Int) }
      { g1 with current_hash := some (calculate_hash g1) })

/-- The state of a freshly created ledger (empty index, nothing saved yet). -/
def create_genesis_state (difficulty : Nat) (now : Int) (fuel : Nat) :
    Option ChainState :=
  (create_genesis_block difficulty now fuel).map
    (fun g => { chain := [g], doc_index := [], saved := none })

/-- The loop of `Blockchain.is_chain_valid` over consecutive pairs. -/
def validFrom (env : CryptoEnv) (difficulty : Nat) (now : Int) :
    Block → List Block → Except PyErr Bool
  | _, [] => .ok true
  | prev, b :: rest =>
    match is_new_block_valid env difficulty now b prev with
    | .error e => .error e
    | .ok false => .ok false
    | .ok true => validFrom env difficulty now b rest

/-- The body of `Blockchain.is_chain_valid` over the chain list: the special
genesis checks, then the pairwise loop. -/
def is_chain_valid_list (env : CryptoEnv) (difficulty : Nat) (now : Int) :
    List Block → Except PyErr Bool
  | [] => .ok true
  | g :: rest =>
    if g.index ≠ 0 then .ok false
    else if g.current_hash ≠ some (calculate_hash g) then .ok false
    else
      match g.current_hash with
      | none => .error .attributeError
      | some h =>
        if ¬ pyStartsWith h (diffString difficulty) then .ok false
        else validFrom env difficulty now g rest

/-- Embedding of `Blockchain.is_chain_valid`. -/
def is_chain_valid (env : CryptoEnv) (difficulty : Nat) (now : Int)
    (st : ChainState) : Except PyErr Bool :=
  is_chain_valid_list env difficulty now st.chain

/-- Embedding of `Blockchain.rewind_to_index`: the only rejected indices are
`index < 0` and `index ≥ len(chain)`; on success the chain is truncated to the
first `index + 1` blocks, the document index rebuilt from the kept prefix, and
the chain file rewritten by `save_chain`. -/
def rewind_to_index (st : ChainState) (index : Int) : Bool × ChainState :=
  if index < 0 ∨ (st.chain.length : Int) ≤ index then (false, st)
  else
    (true,
     { (st.chain.take (index.toNat + 1)).foldl add_block_to_index
         { chain := st.chain.take (index.toNat + 1), doc_index := [],
           saved := st.saved } with
       saved := some (st.chain.take (index.toNat + 1)) })

/-! ## network/protocol.py: framed transport -/

def MAGIC_NUMBER : List Nat := utf8Encode "6022h@1nV@116@t0r"

def MAGIC_NUMBER_LEN : Nat := MAGIC_NUMBER.length

def LENGTH_FIELD_LEN : Nat := 4

def MAX_ALLOWED_PAYLOAD_SIZE : Nat := 10 * 1024 * 1024

/-- Model of `int.from_bytes(bs, 'big')`. -/
def intFromBytesBE (bs : List Nat) : Nat := bs.foldl (fun acc b => acc * 256 + b) 0

/-- The JSON payload bytes `json.dumps(message).encode('utf-8')` of
`send_message`. -/
def send_message_payload (m : JVal) : List Nat := utf8Encode (pyJsonDumpDefault m)

/-- The byte frame written by `send_message`:
magic number, 4-byte big-endian length, JSON payload.  (`to_bytes(4, 'big')`
would raise for payloads of 2^32 bytes or more; all frames considered below
are far smaller.) -/
def send_message_frame (m : JVal) : List Nat :=
  MAGIC_NUMBER ++ be4 (send_message_payload m).length ++ send_message_payload m

def framesConcat (msgs : List JVal) : List Nat :=
  msgs.foldr (fun m acc => send_message_frame m ++ acc) []

/-- The error classes `receive_message` can raise: `ConnectionError` from
`read_exact_bytes`, `ValueError` for protocol violations (bad magic, oversized
payload, undecodable payload), and the `NameError` that a zero-length payload
triggers on the unbound `message_dict`. -/
inductive RecvErr where
  | connectionError
  | valueError
  | nameError
deriving DecidableEq

/-- Model of `read_exact_bytes` on a byte stream: a stream with fewer than
`n` bytes models a peer that closes the connection early. -/
def read_exact (stream : List Nat) (n : Nat) : Except RecvErr (List Nat × List Nat) :=
  if stream.length < n then .error .connectionError
  else .ok (stream.take n, stream.drop n)

/-- Embedding of `receive_message`.  `loadsBytes` abstracts
`json.loads(payload.decode('utf-8'))`, returning `none` when decoding or
parsing raises (both are re-raised as `ValueError`). -/
def receive_message (loadsBytes : List Nat → Option JVal) (stream : List Nat) :
    Except RecvErr (JVal × List Nat) :=
  match read_exact stream MAGIC_NUMBER_LEN with
  | .error e => .error e
  | .ok (magic, rest1) =>
    if magic ≠ MAGIC_NUMBER then .error .valueError
    else
      match read_exact rest1 LENGTH_FIELD_LEN with
      | .error e => .error e
      | .ok (lenBytes, rest2) =>
        let payload_length := intFromBytesBE lenBytes
        if payload_length > MAX_ALLOWED_PAYLOAD_SIZE then .error .valueError
        else if payload_length = 0 then .error .nameError
        else
          match read_exact rest2 payload_length with
          | .error e => .error e
          | .ok (payload, rest3) =>
            match loadsBytes payload with
            | none => .error .valueError
            | some m => .ok (m, rest3)

/-- Repeated `receive_message` calls on one stream. -/
def receiveMany (loadsBytes : List Nat → Option JVal) :
    Nat → List Nat → Except RecvErr (List JVal × List Nat)
  | 0, s => .ok ([], s)
  | n+1, s =>
    match receive_message loadsBytes s with
    | .error e => .error e
    | .ok (m, s') =>
      match receiveMany loadsBytes n s' with
      | .error e => .error e
      | .ok (ms, s'') => .ok (m :: ms, s'')

/-! ## The network mining lock (network/node.py, network/connection.py) -/

structure LockState where
  in_progress : Bool
  holder : Option String
  timer : Option Nat

inductive LockMsg where
  | MINING_START
  | MINING_FINISH
deriving DecidableEq

def MINING_LOCK_TIMEOUT : Nat := 600

/-- Embedding of `BlockchainNode.request_mining_lock`: the returned list holds
the broadcasts performed. -/
def request_mining_lock (self_id : String) (st : LockState) :
    Bool × LockState × List LockMsg :=
  if st.in_progress then (false, st, [])
  else
    (true,
     { in_progress := true, holder := some self_id,
       timer := some MINING_LOCK_TIMEOUT },
     [.MINING_START])

/-- Embedding of `ConnectionManager.acquire_mining_lock_from_peer`. -/
def acquire_mining_lock_from_peer (peer_id : String) (st : LockState) : LockState :=
  if st.in_progress ∧ st.holder ≠ some peer_id then st
  else
    { in_progress := true, holder := some peer_id,
      timer := some MINING_LOCK_TIMEOUT }

/-- Embedding of `ConnectionManager.release_mining_lock`. -/
def release_mining_lock (st : LockState) : LockState :=
  if st.in_progress then { in_progress := false, holder := none, timer := none }
  else { st with timer := none }

/-- Embedding of `ConnectionManager.handle_mining_finish`. -/
def handle_mining_finish (peer_id : String) (st : LockState) : LockState :=
  if st.in_progress ∧ st.holder = some peer_id then release_mining_lock st else st

/-! ## The mining worker's call of add_block (mining_worker.py) -/

/-- Model of CPython keyword-argument binding: a call supplying a keyword that
is not among the function's parameters raises `TypeError` before the function
body runs. -/
def bindKeywordCall (params : List String) (kwargs : List String) :
    Except PyErr Unit :=
  if kwargs.all (fun k => params.contains k) then .ok () else .error .typeError

/-- The parameters of `Blockchain.add_block(self, data, signature)`. -/
def add_block_params : List String := ["data", "signature"]

/-- The keywords of the call
`self.blockchain.add_block(data=..., signature=..., stop_event=...)`
in `BlockMiningWorker._mine_blocks`. -/
def mining_worker_call_keywords : List String := ["data", "signature", "stop_event"]

/-- The worker's attempt to mine one page: keyword binding for the
`add_block` call, then the call itself. -/
def worker_add_block_call (env : CryptoEnv) (difficulty : Nat) (st : ChainState)
    (now : Int) (fuel : Nat) (data : BlockData) (signature : String) :
    Option (Except PyErr (Option Block × ChainState)) :=
  match bindKeywordCall add_block_params mining_worker_call_keywords with
  | .error e => some (.error e)
  | .ok _ => add_block env difficulty st now fuel data signature

/-- One iteration of the per-task loop of `_mine_blocks`: the `try` block
around it has only a `finally` clause, so an exception from the call leaves
the loop. -/
def worker_mine_task_step (env : CryptoEnv) (difficulty : Nat) (st : ChainState)
    (now : Int) (fuel : Nat) (task : BlockData × String) :
    Option (Except PyErr ChainState) :=
  match worker_add_block_call env difficulty st now fuel task.1 task.2 with
  | none => none
  | some (.error e) => some (.error e)
  | some (.ok (_, st')) => some (.ok st')

/-! ## Peer identity (network/node.py) -/

/-- The `self.peer_id` computed in `BlockchainNode.__init__`. -/
def node_self_peer_id (host : String) (port : Int) : String :=
  sha256HexOfString (host ++ ":" ++ toString port)

/-- Embedding of the static method `BlockchainNode.hash_peer_id`. -/
def hash_peer_id (host : String) (port : Int) : String :=
  String.mk ((sha256HexOfString (host ++ ":" ++ toString port)).data.take 16)

/-! ## Specification-side formulations and concrete instances -/

/-- The six chain rules of the specification, as one conjunction (index
successor, previous-hash link, self-hash recompute, difficulty target, clock
bound, timestamp monotonicity). -/
def sixChainRules (difficulty : Nat) (now : Int) (nb pb : Block) : Bool :=
  decide (nb.index = pb.index + 1) &&
  decide (nb.previous_hash = pb.current_hash) &&
  decide (nb.current_hash = some (calculate_hash nb)) &&
  (match nb.current_hash with
   | some h => pyStartsWith h (diffString difficulty)
   | none => false) &&
  decide (nb.timestamp ≤ now + 60) &&
  decide (pb.timestamp ≤ nb.timestamp)

/-- The page-record part of `is_new_block_valid`, reached after the six chain
rules pass: the `data.get('public_key')` lookup (an `AttributeError` on
non-dict data), the truthiness test, and the guarded verification. -/
def pageRecordRule (env : CryptoEnv) (nb : Block) : Except PyErr Bool :=
  match nb.data with
  | .bstr _ => .error .attributeError
  | .bdict fields =>
    match dictGet fields "public_key" with
    | none => .ok false
    | some v =>
      if jvalFalsy v then .ok false
      else .ok (tryPageVerify env fields v nb.signature)

/-- Whether a block would be indexed under the given title by
`add_block_to_index`. -/
def hasTitle (b : Block) (title : String) : Bool :=
  match b.data with
  | .bstr _ => false
  | .bdict fields =>
    !fields.isEmpty &&
    (match dictGet fields "title" with
     | some t => jvalKeyEq t (.jstr title)
     | none => false)

/-- The chains reachable from a freshly created genesis ledger by successful
`add_block` calls; the index tracks the time of the latest call. -/
inductive BuiltChain (env : CryptoEnv) (difficulty : Nat) : ChainState → Int → Prop where
  | genesis (now : Int) (fuel : Nat) (st : ChainState)
      (h : create_genesis_state difficulty now fuel = some st) :
      BuiltChain env difficulty st now
  | step (st : ChainState) (t now : Int) (fuel : Nat) (data : BlockData)
      (sig : String) (b : Block) (st' : ChainState)
      (hb : BuiltChain env difficulty st t)
      (h : add_block env difficulty st now fuel data sig = some (.ok (some b, st'))) :
      BuiltChain env difficulty st' now

/-- A crypto environment in which no key parses (sufficient wherever the
record rule is not reached). -/
def envNone : CryptoEnv := ⟨fun _ => none, fun _ _ _ => false⟩

/-- A crypto environment in which every PEM string parses to itself and every
verification succeeds (used to instantiate witnesses). -/
def envAccept : CryptoEnv := ⟨fun s => some s, fun _ _ _ => true⟩

/-- A placeholder block used only as the default of `Option.getD`. -/
def blockDummy : Block := ⟨0, none, 0, 1, .bstr "", "", 0, none⟩

/-- A concrete predecessor block for the validation counterexample. -/
def prevEx : Block :=
  let p0 : Block := ⟨0, some "0", 3, 1, .bstr "prev", "sig", 0, none⟩
  { p0 with current_hash := some (calculate_hash p0) }

/-- A concrete follow-up block whose data is a plain string and which
satisfies the six chain rules at difficulty 0 and time 10. -/
def nbEx : Block :=
  let n0 : Block := ⟨1, prevEx.current_hash, 5, 1, .bstr "payload", "sig", 0, none⟩
  { n0 with current_hash := some (calculate_hash n0) }

/-- A concrete two-block chain state for the rewind counterexample. -/
def stRew : ChainState :=
  ⟨[⟨0, some "0", 0, 1, .bstr "a", "s", 0, some "h0"⟩,
    ⟨1, some "h0", 0, 1, .bdict [("title", .jstr "doc"), ("page", .jint 0)], "s", 0, some "h1"⟩],
   [(.jstr "doc", [⟨1, some "h0", 0, 1, .bdict [("title", .jstr "doc"), ("page", .jint 0)], "s", 0, some "h1"⟩])],
   none⟩

/-- The genesis block of a difficulty-0 ledger created at time 1 with fuel 1. -/
def gEx : Block := (create_genesis_block 0 1 1).getD blockDummy

/-- A concrete page record with all four fields. -/
def pageDataEx : BlockData :=
  .bdict [("title", .jstr "t"), ("page", .jint 0), ("content", .jstr "hi"),
          ("public_key", .jstr "k")]

/-- A fresh difficulty-0 ledger created at time 0. -/
def st0Ex : ChainState := (create_genesis_state 0 0 1).getD ⟨[], [], none⟩

/-- The result of one `add_block` call on the fresh ledger at time 1. -/
def stepResultEx : Option (Except PyErr (Option Block × ChainState)) :=
  add_block envAccept 0 st0Ex 1 1 pageDataEx "s"

def bEx : Block :=
  match stepResultEx with
  | some (.ok (some b, _)) => b
  | _ => blockDummy

def st1Ex : ChainState :=
  match stepResultEx with
  | some (.ok (_, s)) => s
  | _ => st0Ex

/-- A 10-MiB string of the letter a. -/
def bigA : String := String.mk (List.replicate 10485760 'a')

/-- A JSON-object message whose default-separator JSON encoding exceeds
`MAX_ALLOWED_PAYLOAD_SIZE`. -/
def bigMsgEx : JVal := .jobj [("a", .jstr bigA)]

/-- A loads function that recovers `bigMsgEx` from its own payload
(satisfying the round-trip hypothesis of the framing claim). -/
def loadsBig : List Nat → Option JVal :=
  fun bs => if bs = send_message_payload bigMsgEx then some bigMsgEx else none

/-- A small concrete message for the transport witness. -/
def pingMsgEx : JVal := .jobj [("type", .jstr "PING")]

/-- A loads function recovering `pingMsgEx` from its payload. -/
def loadsPing : List Nat → Option JVal :=
  fun bs => if bs = send_message_payload pingMsgEx then some pingMsgEx else none

/-! ## Theorems -/

/-- SHA-256 sanity check against the standard empty-message test vector. -/
theorem sha256_vector_empty :
    sha256HexOfString "" =
      "e3b0c44298fc1c149afbf4c8996fb92427ae41e4649b934ca495991b7852b855" := by
  decide

/-- SHA-256 sanity check against the standard "abc" test vector. -/
theorem sha256_vector_abc :
    sha256HexOfString "abc" =
      "ba7816bf8f01cfea414140de5dae2223b00361a396177a9cb410ff61f20015ad" := by
  decide

theorem specChunksF_eq_of_le (f₁ : Nat) :
    ∀ (l : List Char) (f₂ : Nat), l.length ≤ f₁ → l.length ≤ f₂ →
      specChunksF f₁ l = specChunksF f₂ l := by
  induction f₁ with
  | zero =>
    intro l f₂ h₁ _
    have : l = [] := List.eq_nil_of_length_eq_zero (Nat.le_zero.mp h₁)
    subst this
    cases f₂ <;> simp [specChunksF]
  | succ f₁ ih =>
    intro l f₂ h₁ h₂
    cases l with
    | nil => cases f₂ <;> simp [specChunksF]
    | cons x xs =>
      cases f₂ with
      | zero => simp at h₂
      | succ f₂ =>
        simp only [specChunksF]
        congr 1
        apply ih
        · simp only [List.length_drop, List.length_cons]
          simp only [List.length_cons] at h₁
          omega
        · simp only [List.length_drop, List.length_cons]
          simp only [List.length_cons] at h₂
          omega

theorem specChunks_cons (x : Char) (xs : List Char) :
    specChunks (x :: xs) = (x :: xs).take 20 :: specChunks ((x :: xs).drop 20) := by
  show specChunksF (x :: xs).length (x :: xs) = _
  simp only [List.length_cons, specChunksF]
  congr 1
  unfold specChunks
  apply specChunksF_eq_of_le
  · simp only [List.length_drop, List.length_cons]
    omega
  · exact Nat.le_refl _

theorem pageChunksPy_cons (x : Char) (xs : List Char) :
    pageChunksPy (x :: xs) =
      (x :: xs).take 20 :: pageChunksPy ((x :: xs).drop 20) := by
  unfold pageChunksPy
  have hlen : ((x :: xs).length + 19) / 20 = (((x :: xs).drop 20).length + 19) / 20 + 1 := by
    simp only [List.length_cons, List.length_drop]
    omega
  rw [hlen, List.range_succ_eq_map]
  simp only [List.map_map, List.map_cons, Function.comp_apply, Nat.zero_mul,
    List.drop_zero]
  congr 1
  apply List.map_congr_left
  intro k _
  simp only [Function.comp_apply, List.drop_drop]
  congr 2
  omega

/-- The Python slice-based chunking agrees with the take-20 / drop-20
chunking the specification describes. -/
theorem pageChunksPy_eq_specChunks (l : List Char) : pageChunksPy l = specChunks l := by
  have main : ∀ (n : Nat) (l : List Char), l.length ≤ n → pageChunksPy l = specChunks l := by
    intro n
    induction n with
    | zero =>
      intro l hl
      have : l = [] := List.eq_nil_of_length_eq_zero (Nat.le_zero.mp hl)
      subst this
      simp [pageChunksPy, specChunks, specChunksF]
    | succ n ih =>
      intro l hl
      cases l with
      | nil => simp [pageChunksPy, specChunks, specChunksF]
      | cons x xs =>
        rw [pageChunksPy_cons, specChunks_cons]
        congr 1
        apply ih
        simp only [List.length_drop, List.length_cons]
        simp only [List.length_cons] at hl
        omega
  exact main l.length l (Nat.le_refl _)

/-- C1: the page digest of `generate_dp_page_signature` is exactly the
specified function of `(content, title, page_number)`: the hex SHA-256 of
`title || str(page_number) || SEED || "EMPTY_PAGE_PLACEHOLDER"` for empty
content, and otherwise the fold of `h := hex(SHA-256(chunk || h))` over the
successive non-overlapping 20-character chunks of the content, seeded with
`hex(SHA-256(title || str(page_number) || SEED))`; in particular the digest
is a deterministic function of the three inputs. -/
theorem c1_page_digest_matches_spec (content title : String) (page_number : Int) :
    generate_dp_page_signature content title page_number =
      specPageDigest content title page_number := by
  unfold generate_dp_page_signature specPageDigest
  rw [pageChunksPy_eq_specChunks]

theorem length_shaCompress (hs chunk : List Nat) : (shaCompress hs chunk).length = 8 := rfl

theorem length_foldl_shaCompress (cs : List (List Nat)) :
    ∀ hs : List Nat, hs.length = 8 → (cs.foldl shaCompress hs).length = 8 := by
  induction cs with
  | nil => intro hs h; simpa using h
  | cons c cs ih =>
    intro hs _
    simpa [List.foldl_cons] using ih (shaCompress hs c) (length_shaCompress hs c)

theorem length_flatMap_be4 (ws : List Nat) : (ws.flatMap be4).length = 4 * ws.length := by
  induction ws with
  | nil => rfl
  | cons w ws ih =>
    simp only [List.flatMap_cons, List.length_append, ih, List.length_cons, be4]
    simp
    omega

theorem length_sha256Bytes (msg : List Nat) : (sha256Bytes msg).length = 32 := by
  have h8 : ((chunk64 (shaPad msg)).foldl shaCompress shaH0).length = 8 :=
    length_foldl_shaCompress _ _ rfl
  unfold sha256Bytes
  rw [length_flatMap_be4, h8]

theorem hexOfBytes_data_length (bs : List Nat) :
    (hexOfBytes bs).data.length = 2 * bs.length := by
  show (bs.flatMap (fun b => [hexDigit (b / 16), hexDigit (b % 16)])).length = 2 * bs.length
  induction bs with
  | nil => rfl
  | cons b bs ih =>
    simp only [List.flatMap_cons, List.length_append, ih, List.length_cons]
    simp
    omega

theorem sha256HexOfString_data_length (s : String) :
    (sha256HexOfString s).data.length = 64 := by
  unfold sha256HexOfString
  rw [hexOfBytes_data_length, length_sha256Bytes]

/-- C10 (amended): `hash_peer_id` returns the first 16 hex digits of the
SHA-256 of `"host:port"`, while the node's own `self.peer_id` set in
`BlockchainNode.__init__` is the untruncated 64-hex-digit digest of the same
string; the former is the 16-character prefix of the latter. -/
theorem c10_peer_id_truncation (host : String) (port : Int) :
    hash_peer_id host port = String.mk ((node_self_peer_id host port).data.take 16) ∧
    (node_self_peer_id host port).data.length = 64 ∧
    (hash_peer_id host port).data.length = 16 := by
  refine ⟨rfl, sha256HexOfString_data_length _, ?_⟩
  have hdata : (hash_peer_id host port).data =
      (sha256HexOfString (host ++ ":" ++ toString port)).data.take 16 := rfl
  rw [hdata, List.length_take, sha256HexOfString_data_length]
  simp

/-- C10 counterexample: a node's own `self.peer_id` (the full 64-digit
hex digest) differs from `hash_peer_id` (the 16-digit truncation) at the
concrete endpoint 127.0.0.1:5000. -/
theorem c10_counterexample :
    node_self_peer_id "127.0.0.1" 5000 ≠ hash_peer_id "127.0.0.1" 5000 := by
  decide

/-- C9: for every document task the mining worker takes, the call
`self.blockchain.add_block(data=..., signature=..., stop_event=...)` raises
`TypeError` (the parameter list is only `(data, signature)`), so no state is
produced, no block is appended, and the error escapes the per-task `try`
block, which has only a `finally` clause. -/
theorem c9_worker_call_type_error (env : CryptoEnv) (difficulty : Nat)
    (st : ChainState) (now : Int) (fuel : Nat) (task : BlockData × String) :
    worker_mine_task_step env difficulty st now fuel task =
      some (.error .typeError) := rfl

/-- C3: the cancellation interface the specification describes does not
exist in `Blockchain.add_block`: the keyword call used by the mining worker
is rejected with `TypeError`, `stop_event` is not among the parameters of
`add_block`, and `_proof_of_work` only ever returns the tried nonce counter,
a natural number, never the sentinel `-1`. -/
theorem c3_add_block_lacks_stop_event :
    bindKeywordCall add_block_params mining_worker_call_keywords = .error .typeError ∧
    add_block_params.contains "stop_event" = false ∧
    ∀ (difficulty : Nat) (b : Block) (fuel : Nat) (n : Nat),
      proof_of_work difficulty b fuel = some n → 0 ≤ (n : Int) := by
  refine ⟨rfl, rfl, ?_⟩
  intro difficulty b fuel n _
  exact Int.natCast_nonneg n

theorem c3_witness :
    bindKeywordCall add_block_params mining_worker_call_keywords = .error .typeError ∧
    proof_of_work 0 blockDummy 1 = some 0 ∧ 0 ≤ ((0 : Nat) : Int) :=
  ⟨c3_add_block_lacks_stop_event.1, by decide,
   c3_add_block_lacks_stop_event.2.2 0 blockDummy 1 0 (by decide)⟩

/-- C5 counterexample: on a two-block chain, `rewind_to_index 0` returns
`True` (the code rejects only `index < 0` and `index ≥ len(chain)`), where
the claim asserts it returns false for `i == 0`. -/
theorem c5_counterexample : (rewind_to_index stRew 0).1 = true := by decide

/-- Validation as one equation: the six chain rules in conjunction, then the
page-record rule applied unconditionally to whatever passed them. -/
theorem is_new_block_valid_eq (env : CryptoEnv) (difficulty : Nat) (now : Int)
    (nb pb : Block) :
    is_new_block_valid env difficulty now nb pb =
      if sixChainRules difficulty now nb pb then pageRecordRule env nb
      else .ok false := by
  unfold is_new_block_valid sixChainRules pageRecordRule
  by_cases h1 : nb.index = pb.index + 1
  · by_cases h2 : nb.previous_hash = pb.current_hash
    · by_cases h3 : nb.current_hash = some (calculate_hash nb)
      · by_cases h4 : pyStartsWith (calculate_hash nb) (diffString difficulty) = true
        · by_cases h5 : nb.timestamp ≤ now + 60
          · by_cases h6 : pb.timestamp ≤ nb.timestamp
            · have h5' : ¬ nb.timestamp > now + 60 := by omega
              have h6' : ¬ nb.timestamp < pb.timestamp := by omega
              simp [h1, h2, h3, h4, h5, h6, h5', h6']
            · have h6' : nb.timestamp < pb.timestamp := by omega
              simp [h1, h2, h3, h4, h5, h6, h6']
          · have h5' : nb.timestamp > now + 60 := by omega
            simp [h1, h2, h3, h4, h5, h5']
        · simp [h1, h2, h3, h4]
      · simp [h1, h2, h3]
    · simp [h1, h2]
  · simp [h1]

/-- C2 (amended): `is_new_block_valid` decides by the six chain rules in
order (index successor, previous-hash link, self-hash recompute, difficulty
target, `timestamp ≤ now + 60`, `timestamp ≥ previous.timestamp`) and then
applies the page-record rule to every block that passed them: a dict without
a truthy `public_key` is rejected with `False`, and a block whose data is not
a dict (for example a plain string) raises `AttributeError` instead of being
accepted. -/
theorem c2_validation_rules (env : CryptoEnv) (difficulty : Nat) (now : Int)
    (nb pb : Block) :
    is_new_block_valid env difficulty now nb pb =
      if sixChainRules difficulty now nb pb then pageRecordRule env nb
      else .ok false :=
  is_new_block_valid_eq env difficulty now nb pb

set_option maxRecDepth 100000 in
set_option maxHeartbeats 2000000 in
/-- C2 counterexample: the concrete block `nbEx` with plain-string data
satisfies all six chain rules against `prevEx` at difficulty 0 and time 10,
yet `is_new_block_valid` raises `AttributeError` rather than accepting it. -/
theorem c2_counterexample :
    sixChainRules 0 10 nbEx prevEx = true ∧
    is_new_block_valid envNone 0 10 nbEx prevEx = .error .attributeError :=
  ⟨rfl, rfl⟩

theorem powFrom_startsWith (difficulty : Nat) (b : Block) :
    ∀ (fuel k n : Nat), powFrom difficulty b fuel k = some n →
      pyStartsWith (calculate_hash { b with nonce := (n : Int) })
        (diffString difficulty) = true := by
  intro fuel
  induction fuel with
  | zero => intro k n h; simp [powFrom] at h
  | succ fuel ih =>
    intro k n h
    simp only [powFrom] at h
    split at h
    · rename_i hc
      cases h
      exact hc
    · rename_i hc
      exact ih (k+1) n h

theorem proof_of_work_startsWith (difficulty : Nat) (b : Block) (fuel n : Nat)
    (h : proof_of_work difficulty b fuel = some n) :
    pyStartsWith (calculate_hash { b with nonce := (n : Int) })
      (diffString difficulty) = true :=
  powFrom_startsWith difficulty b fuel 0 n h

theorem create_genesis_block_fields (difficulty : Nat) (now : Int) (fuel : Nat)
    (g : Block) (h : create_genesis_block difficulty now fuel = some g) :
    g.index = 0 ∧ g.previous_hash = some "0" ∧ g.timestamp = now ∧
    g.data = BlockData.bdict [("message", JVal.jstr "Genesis Block")] ∧
    g.signature = "N/A_GENESIS_SIGNATURE" ∧
    g.current_hash = some (calculate_hash g) ∧
    pyStartsWith (calculate_hash g) (diffString difficulty) = true := by
  unfold create_genesis_block at h
  rw [Option.map_eq_some'] at h
  obtain ⟨n, hpow, hg⟩ := h
  subst hg
  refine ⟨rfl, rfl, rfl, rfl, rfl, rfl, ?_⟩
  have h' := proof_of_work_startsWith difficulty _ fuel n hpow
  exact h'

/-- C6 (amended): a genesis block created for a fresh ledger has index 0,
previous_hash "0", data `{"message": "Genesis Block"}`, signature
`"N/A_GENESIS_SIGNATURE"`, a current hash meeting the configured difficulty,
and timestamp equal to the creation time `int(time.time())` (not 0). -/
theorem c6_genesis_fields (difficulty : Nat) (now : Int) (fuel : Nat) (g : Block)
    (h : create_genesis_block difficulty now fuel = some g) :
    g.index = 0 ∧ g.previous_hash = some "0" ∧ g.timestamp = now ∧
    g.data = BlockData.bdict [("message", JVal.jstr "Genesis Block")] ∧
    g.signature = "N/A_GENESIS_SIGNATURE" ∧
    ∃ hh, g.current_hash = some hh ∧
      pyStartsWith hh (diffString difficulty) = true := by
  obtain ⟨h1, h2, h3, h4, h5, h6, h7⟩ :=
    create_genesis_block_fields difficulty now fuel g h
  exact ⟨h1, h2, h3, h4, h5, _, h6, h7⟩

set_option maxRecDepth 100000 in
set_option maxHeartbeats 2000000 in
theorem c6_witness :
    create_genesis_block 0 1 1 = some gEx ∧ gEx.timestamp = 1 ∧ gEx.index = 0 := by
  have hsome : create_genesis_block 0 1 1 = some gEx := rfl
  have h := c6_genesis_fields 0 1 1 gEx hsome
  exact ⟨hsome, h.2.2.1, h.1⟩

set_option maxRecDepth 100000 in
set_option maxHeartbeats 2000000 in
/-- C6 counterexample: the genesis block of a fresh difficulty-0 ledger
created at time 1 carries timestamp 1, not the timestamp 0 the claim states
(`_create_genesis_block` uses `int(time.time())`). -/
theorem c6_counterexample :
    create_genesis_block 0 1 1 = some gEx ∧ gEx.timestamp ≠ 0 :=
  ⟨rfl, by decide⟩

theorem mem_insertByIdx (a b : Block) :
    ∀ l : List Block, a ∈ insertByIdx b l ↔ a = b ∨ a ∈ l := by
  intro l
  induction l with
  | nil => simp [insertByIdx]
  | cons x rest ih =>
    simp only [insertByIdx]
    by_cases hc : b.index < x.index
    · simp [hc]
    · simp only [if_neg hc, List.mem_cons, ih]
      tauto

theorem mem_sortByIdx (a : Block) : ∀ l : List Block, a ∈ sortByIdx l ↔ a ∈ l := by
  intro l
  induction l with
  | nil => simp [sortByIdx]
  | cons x rest ih =>
    show a ∈ insertByIdx x (sortByIdx rest) ↔ _
    rw [mem_insertByIdx]
    simp [ih]

theorem beqCommLocal {α} [BEq α] [LawfulBEq α] (a b : α) : (a == b) = (b == a) := by
  by_cases h : a = b
  · subst h; rfl
  · have h1 : (a == b) = false := by
      cases hab : a == b
      · rfl
      · exact absurd (eq_of_beq hab) h
    have h2 : (b == a) = false := by
      cases hba : b == a
      · rfl
      · exact absurd (eq_of_beq hba).symm h
    rw [h1, h2]

theorem jvalKeyEq_congr : ∀ {a b : JVal}, jvalKeyEq a b = true →
    ∀ c, jvalKeyEq a c = jvalKeyEq b c := by
  intro a b h c
  cases a <;> cases b <;> simp [jvalKeyEq] at h <;> try rfl
  all_goals (subst h; rfl)

theorem jvalKeyEq_symm (a b : JVal) : jvalKeyEq a b = jvalKeyEq b a := by
  cases a <;> cases b <;> simp only [jvalKeyEq] <;>
    first
    | rfl
    | exact beqCommLocal ..

theorem mem_indexLookup_indexInsert (title : String) (key : JVal) (bNew a : Block) :
    ∀ ix : List (JVal × List Block),
      a ∈ indexLookup title (indexInsert key bNew ix) ↔
        a ∈ indexLookup title ix ∨
          (a = bNew ∧ jvalKeyEq key (.jstr title) = true) := by
  intro ix
  induction ix with
  | nil =>
    by_cases hk : jvalKeyEq key (.jstr title) = true
    · simp [indexInsert, indexLookup, hk, sortByIdx, insertByIdx]
    · simp [indexInsert, indexLookup, hk]
  | cons p rest ih =>
    obtain ⟨k, bs⟩ := p
    simp only [indexInsert]
    by_cases hk : jvalKeyEq k key = true
    · simp only [if_pos hk, indexLookup]
      by_cases ht : jvalKeyEq k (.jstr title) = true
      · have hkey : jvalKeyEq key (.jstr title) = true := by
          rw [← jvalKeyEq_congr hk]
          exact ht
        simp only [if_pos ht, mem_sortByIdx, List.mem_append, List.mem_singleton, hkey]
        tauto
      · have hkey : jvalKeyEq key (.jstr title) = false := by
          rw [← jvalKeyEq_congr hk]
          exact Bool.not_eq_true _ ▸ (by simpa using ht)
        simp [if_neg ht, hkey]
    · simp only [if_neg hk, indexLookup]
      by_cases ht : jvalKeyEq k (.jstr title) = true
      · have hkey : jvalKeyEq key (.jstr title) = false := by
          by_contra hcon
          have h1 : jvalKeyEq key (.jstr title) = true := by
            revert hcon
            cases jvalKeyEq key (.jstr title) <;> simp
          have h2 : jvalKeyEq k key = true := by
            rw [jvalKeyEq_congr ht key, jvalKeyEq_symm]
            exact h1
          exact hk h2
        simp [if_pos ht, hkey]
      · simp only [if_neg ht]
        exact ih

theorem add_block_to_index_chain (st : ChainState) (b : Block) :
    (add_block_to_index st b).chain = st.chain := by
  unfold add_block_to_index
  cases hd : b.data with
  | bstr s => rfl
  | bdict fields =>
    by_cases he : fields.isEmpty
    · simp [he]
    · cases hg : dictGet fields "title" with
      | none => simp [he, hg]
      | some t => simp [he, hg]

theorem chain_foldl_add_block_to_index :
    ∀ (l : List Block) (st : ChainState),
      (l.foldl add_block_to_index st).chain = st.chain := by
  intro l
  induction l with
  | nil => intro st; rfl
  | cons c cs ih =>
    intro st
    rw [List.foldl_cons, ih, add_block_to_index_chain]

theorem mem_title_add_block_to_index (st : ChainState) (c a : Block) (title : String) :
    a ∈ get_blocks_by_title (add_block_to_index st c) title ↔
      a ∈ get_blocks_by_title st title ∨ (a = c ∧ hasTitle c title = true) := by
  unfold add_block_to_index hasTitle get_blocks_by_title
  cases hd : c.data with
  | bstr s => simp
  | bdict fields =>
    by_cases he : fields.isEmpty
    · simp [he]
    · cases hg : dictGet fields "title" with
      | none => simp [he, hg]
      | some t =>
        simp only [he, hg, Bool.not_eq_true', if_neg, Bool.false_eq_true]
        rw [if_neg (by simp [he])]
        show a ∈ indexLookup title (indexInsert t c st.doc_index) ↔ _
        rw [mem_indexLookup_indexInsert]
        simp [he]

theorem mem_title_foldl_index :
    ∀ (l : List Block) (st : ChainState) (a : Block) (title : String),
      a ∈ get_blocks_by_title (l.foldl add_block_to_index st) title ↔
        a ∈ get_blocks_by_title st title ∨ (a ∈ l ∧ hasTitle a title = true) := by
  intro l
  induction l with
  | nil => intro st a title; simp
  | cons c cs ih =>
    intro st a title
    rw [List.foldl_cons, ih, mem_title_add_block_to_index]
    constructor
    · rintro ((h | ⟨rfl, h⟩) | ⟨h, h'⟩)
      · exact Or.inl h
      · exact Or.inr ⟨List.mem_cons_self _ _, h⟩
      · exact Or.inr ⟨List.mem_cons_of_mem _ h, h'⟩
    · rintro (h | ⟨hmem, h'⟩)
      · exact Or.inl (Or.inl h)
      · rcases List.mem_cons.mp hmem with rfl | hcs
        · exact Or.inl (Or.inr ⟨rfl, h'⟩)
        · exact Or.inr ⟨hcs, h'⟩

/-- C5 (amended): `rewind_to_index i` returns false exactly when `i < 0` or
`i ≥ len(chain)` (so `i == 0` on a non-empty chain succeeds, truncating to
the genesis block alone); whenever it returns true, the chain afterwards is
exactly the first `i+1` blocks, the chain file is rewritten with that prefix,
and the rebuilt document index answers `get_blocks_by_title` with exactly the
remaining blocks carrying the queried title. -/
theorem c5_rewind_behaviour (st : ChainState) (i : Int) :
    ((rewind_to_index st i).1 = false ↔ i < 0 ∨ (st.chain.length : Int) ≤ i) ∧
    ((rewind_to_index st i).1 = true →
      (rewind_to_index st i).2.chain = st.chain.take (i.toNat + 1) ∧
      ((rewind_to_index st i).2.chain.length : Int) = i + 1 ∧
      (rewind_to_index st i).2.saved = some (st.chain.take (i.toNat + 1)) ∧
      ∀ (title : String) (b : Block),
        b ∈ get_blocks_by_title (rewind_to_index st i).2 title ↔
          b ∈ st.chain.take (i.toNat + 1) ∧ hasTitle b title = true) := by
  by_cases hc : i < 0 ∨ (st.chain.length : Int) ≤ i
  · unfold rewind_to_index
    simp [hc]
  · obtain ⟨hc1, hc2⟩ := not_or.mp hc
    have hfst : (rewind_to_index st i).1 = true := by
      unfold rewind_to_index
      rw [if_neg hc]
    have hchain : (rewind_to_index st i).2.chain = st.chain.take (i.toNat + 1) := by
      unfold rewind_to_index
      rw [if_neg hc]
      exact chain_foldl_add_block_to_index _ _
    have hsaved :
        (rewind_to_index st i).2.saved = some (st.chain.take (i.toNat + 1)) := by
      unfold rewind_to_index
      rw [if_neg hc]
    have hlen : ((rewind_to_index st i).2.chain.length : Int) = i + 1 := by
      rw [hchain, List.length_take]
      omega
    have hmem : ∀ (title : String) (b : Block),
        b ∈ get_blocks_by_title (rewind_to_index st i).2 title ↔
          b ∈ st.chain.take (i.toNat + 1) ∧ hasTitle b title = true := by
      intro title b
      have hget :
          get_blocks_by_title (rewind_to_index st i).2 title =
            get_blocks_by_title
              ((st.chain.take (i.toNat + 1)).foldl add_block_to_index
                { chain := st.chain.take (i.toNat + 1), doc_index := [],
                  saved := st.saved }) title := by
        unfold rewind_to_index
        rw [if_neg hc]
        rfl
      rw [hget, mem_title_foldl_index]
      simp [get_blocks_by_title, indexLookup]
    refine ⟨?_, fun _ => ⟨hchain, hlen, hsaved, hmem⟩⟩
    rw [hfst]
    simp [hc1, hc2]

theorem c5_witness :
    (rewind_to_index stRew 1).1 = true ∧
    (rewind_to_index stRew 1).2.chain = stRew.chain.take 2 ∧
    ((rewind_to_index stRew 1).2.chain.length : Int) = 2 := by
  have ht : (rewind_to_index stRew 1).1 = true := by decide
  have h2 := (c5_rewind_behaviour stRew 1).2 ht
  exact ⟨ht, h2.1, h2.2.1⟩

theorem getLast?_cons_getLastD {α : Type} (g : α) :
    ∀ rest : List α, (g :: rest).getLast? = some (rest.getLastD g) := by
  intro rest
  induction rest generalizing g with
  | nil => rfl
  | cons x xs ih => rw [List.getLast?_cons_cons, ih x, List.getLastD_cons]

theorem validFrom_append (env : CryptoEnv) (difficulty : Nat) (now : Int) :
    ∀ (l : List Block) (p b : Block),
      validFrom env difficulty now p l = .ok true →
      is_new_block_valid env difficulty now b (l.getLastD p) = .ok true →
      validFrom env difficulty now p (l ++ [b]) = .ok true := by
  intro l
  induction l with
  | nil =>
    intro p b _ hb
    have hb' : is_new_block_valid env difficulty now b p = .ok true := hb
    simp only [List.nil_append, validFrom]
    rw [hb']
  | cons x xs ih =>
    intro p b hl hb
    simp only [List.cons_append, validFrom] at hl ⊢
    cases hv : is_new_block_valid env difficulty now x p with
    | error e => rw [hv] at hl; exact absurd hl (by simp)
    | ok bb =>
      rw [hv] at hl
      cases bb with
      | false => exact absurd hl (by simp)
      | true =>
        rw [List.getLastD_cons] at hb
        exact ih x b hl hb

theorem is_new_block_valid_mono (env : CryptoEnv) (difficulty : Nat)
    {now T : Int} (nb pb : Block)
    (h : is_new_block_valid env difficulty now nb pb = .ok true)
    (hT : nb.timestamp ≤ T) :
    is_new_block_valid env difficulty T nb pb = .ok true := by
  rw [is_new_block_valid_eq] at h ⊢
  by_cases hs : sixChainRules difficulty now nb pb = true
  · rw [if_pos hs] at h
    have hs' : sixChainRules difficulty T nb pb = true := by
      unfold sixChainRules at hs ⊢
      simp only [Bool.and_eq_true, decide_eq_true_eq] at hs ⊢
      refine ⟨⟨⟨⟨⟨hs.1.1.1.1.1, hs.1.1.1.1.2⟩, hs.1.1.1.2⟩, hs.1.1.2⟩, ?_⟩, hs.2⟩
      omega
    rw [if_pos hs']
    exact h
  · rw [if_neg hs] at h
    exact absurd h (by simp)

theorem add_block_inv (env : CryptoEnv) (difficulty : Nat) (st : ChainState)
    (now : Int) (fuel : Nat) (data : BlockData) (sig : String) (b : Block)
    (st' : ChainState)
    (h : add_block env difficulty st now fuel data sig = some (.ok (some b, st'))) :
    ∃ latest, get_latest_block st = some latest ∧
      st'.chain = st.chain ++ [b] ∧
      b.timestamp = now ∧
      is_new_block_valid env difficulty now b latest = .ok true := by
  unfold add_block at h
  split at h
  · simp at h
  · rename_i latest hlast
    split at h
    · simp at h
    · split at h
      · simp at h
      · rename_i nonce hpow
        rw [Option.some.injEq] at h
        split at h
        · simp at h
        · rename_i hval
          rw [Except.ok.injEq, Prod.mk.injEq, Option.some.injEq] at h
          obtain ⟨hb, hst⟩ := h
          subst hb
          subst hst
          refine ⟨latest, hlast, ?_, rfl, hval⟩
          rw [add_block_to_index_chain]
        · simp at h

theorem built_chain_invariant (env : CryptoEnv) (difficulty : Nat)
    (st : ChainState) (t : Int) (hb : BuiltChain env difficulty st t) :
    (∀ T, t ≤ T → is_chain_valid_list env difficulty T st.chain = .ok true) ∧
    ∃ lb, st.chain.getLast? = some lb ∧ lb.timestamp = t := by
  induction hb with
  | genesis now fuel st0 h =>
    unfold create_genesis_state at h
    rw [Option.map_eq_some'] at h
    obtain ⟨g, hg, hst⟩ := h
    subst hst
    obtain ⟨hidx, hprevh, hts, hdata, hsig, hch, hpw⟩ :=
      create_genesis_block_fields difficulty now fuel g hg
    constructor
    · intro T _
      show is_chain_valid_list env difficulty T [g] = .ok true
      simp only [is_chain_valid_list, hch]
      rw [if_neg (by simp [hidx]), if_neg (by simp)]
      rw [if_neg (by simp [hpw])]
      rfl
    · exact ⟨g, rfl, hts⟩
  | step st t now fuel data sig b st' hbc h ih =>
    obtain ⟨hvalid, lb, hlast, hlbts⟩ := ih
    obtain ⟨latest, hlatest, hchain', hbts, hval⟩ :=
      add_block_inv env difficulty st now fuel data sig b st' h
    have hll : lb = latest := by
      have hx : st.chain.getLast? = some latest := hlatest
      rw [hlast] at hx
      exact Option.some.inj hx
    subst hll
    have htnow : t ≤ now := by
      rw [is_new_block_valid_eq] at hval
      by_cases hs : sixChainRules difficulty now b lb = true
      · unfold sixChainRules at hs
        simp only [Bool.and_eq_true, decide_eq_true_eq] at hs
        have h6 := hs.2
        rw [hbts] at h6
        omega
      · rw [if_neg hs] at hval
        exact absurd hval (by simp)
    constructor
    · intro T hT
      have hTt : t ≤ T := le_trans htnow hT
      have hprevOK := hvalid T hTt
      cases hsc : st.chain with
      | nil => rw [hsc] at hlast; simp at hlast
      | cons g rest =>
        rw [hsc] at hprevOK hchain' hlast
        rw [hchain']
        simp only [List.cons_append]
        simp only [is_chain_valid_list] at hprevOK ⊢
        by_cases h1 : g.index ≠ 0
        · rw [if_pos h1] at hprevOK
          exact absurd hprevOK (by simp)
        · rw [if_neg h1] at hprevOK ⊢
          by_cases h2 : g.current_hash ≠ some (calculate_hash g)
          · rw [if_pos h2] at hprevOK
            exact absurd hprevOK (by simp)
          · rw [if_neg h2] at hprevOK ⊢
            have h2' : g.current_hash = some (calculate_hash g) := not_ne_iff.mp h2
            simp only [h2'] at hprevOK ⊢
            by_cases h3 : pyStartsWith (calculate_hash g) (diffString difficulty) = true
            · rw [if_neg (by simp [h3])] at hprevOK ⊢
              apply validFrom_append env difficulty T rest g b hprevOK
              have hlastD : rest.getLastD g = lb := by
                have hgl := getLast?_cons_getLastD g rest
                rw [hlast] at hgl
                exact (Option.some.inj hgl).symm
              rw [hlastD]
              exact is_new_block_valid_mono env difficulty b lb hval (by omega)
            · rw [if_pos (by simp [h3])] at hprevOK
              exact absurd hprevOK (by simp)
    · refine ⟨b, ?_, hbts⟩
      rw [hchain']
      exact List.getLast?_concat _

/-- C4: every chain obtained from a freshly created genesis block by a finite
sequence of `add_block` calls that each return a block passes
`is_chain_valid` (checked at any time `T` not earlier than the last append,
matching the forward movement of the wall clock). -/
theorem c4_built_chains_valid (env : CryptoEnv) (difficulty : Nat)
    (st : ChainState) (t : Int) (hb : BuiltChain env difficulty st t)
    (T : Int) (hT : t ≤ T) :
    is_chain_valid env difficulty T st = .ok true :=
  (built_chain_invariant env difficulty st t hb).1 T hT

set_option maxRecDepth 200000 in
set_option maxHeartbeats 4000000 in
theorem c4_witness :
    BuiltChain envAccept 0 st1Ex 1 ∧
    is_chain_valid envAccept 0 5 st1Ex = .ok true := by
  have hgen : create_genesis_state 0 0 1 = some st0Ex := rfl
  have hstep : add_block envAccept 0 st0Ex 1 1 pageDataEx "s" =
      some (.ok (some bEx, st1Ex)) := rfl
  have hb : BuiltChain envAccept 0 st1Ex 1 :=
    BuiltChain.step st0Ex 0 1 1 pageDataEx "s" bEx st1Ex
      (BuiltChain.genesis 0 1 st0Ex hgen) hstep
  exact ⟨hb, c4_built_chains_valid envAccept 0 st1Ex 1 hb 5 (by omega)⟩

theorem intFromBytesBE_be4 (n : Nat) (h : n < 4294967296) :
    intFromBytesBE (be4 n) = n := by
  unfold intFromBytesBE be4
  simp only [List.foldl_cons, List.foldl_nil]
  norm_num
  omega

theorem utf8Encode_append (a b : String) :
    utf8Encode (a ++ b) = utf8Encode a ++ utf8Encode b := by
  simp [utf8Encode, String.data_append, List.flatMap_append]

theorem receive_message_bad_magic (loadsBytes : List Nat → Option JVal)
    (s : List Nat) (h17 : 17 ≤ s.length) (hm : s.take 17 ≠ MAGIC_NUMBER) :
    receive_message loadsBytes s = .error .valueError := by
  unfold receive_message read_exact
  have hml : MAGIC_NUMBER_LEN = 17 := rfl
  rw [if_neg (by omega)]
  exact if_pos (show s.take MAGIC_NUMBER_LEN ≠ MAGIC_NUMBER from hml ▸ hm)

theorem receive_message_frame (loadsBytes : List Nat → Option JVal) (m : JVal)
    (rest : List Nat)
    (hload : loadsBytes (send_message_payload m) = some m)
    (hsz : (send_message_payload m).length ≤ MAX_ALLOWED_PAYLOAD_SIZE)
    (hnz : (send_message_payload m).length ≠ 0) :
    receive_message loadsBytes (send_message_frame m ++ rest) = .ok (m, rest) := by
  have hmaxv : MAX_ALLOWED_PAYLOAD_SIZE = 10485760 := rfl
  have h32 : (send_message_payload m).length < 4294967296 := by omega
  have hml : MAGIC_NUMBER.length = 17 := rfl
  have hmll : MAGIC_NUMBER_LEN = 17 := rfl
  have hbl : (be4 (send_message_payload m).length).length = 4 := rfl
  have hlf : LENGTH_FIELD_LEN = 4 := rfl
  unfold send_message_frame
  unfold receive_message read_exact
  simp only [List.append_assoc]
  rw [if_neg (by simp only [List.length_append]; omega)]
  rw [List.take_left' (show MAGIC_NUMBER.length = MAGIC_NUMBER_LEN from rfl),
      List.drop_left' (show MAGIC_NUMBER.length = MAGIC_NUMBER_LEN from rfl)]
  dsimp only
  rw [if_neg (by simp)]
  rw [if_neg (by simp only [List.length_append]; omega)]
  rw [List.take_left'
        (show (be4 (send_message_payload m).length).length = LENGTH_FIELD_LEN from rfl),
      List.drop_left'
        (show (be4 (send_message_payload m).length).length = LENGTH_FIELD_LEN from rfl)]
  dsimp only
  rw [intFromBytesBE_be4 _ h32]
  rw [if_neg (by omega)]
  rw [if_neg hnz]
  rw [if_neg (by simp only [List.length_append]; omega)]
  rw [List.take_left' rfl, List.drop_left' rfl]
  dsimp only
  rw [hload]

theorem receive_message_oversized (loadsBytes : List Nat → Option JVal) (m : JVal)
    (rest : List Nat)
    (hbig : MAX_ALLOWED_PAYLOAD_SIZE < (send_message_payload m).length)
    (h32 : (send_message_payload m).length < 4294967296) :
    receive_message loadsBytes (send_message_frame m ++ rest) = .error .valueError := by
  have hml : MAGIC_NUMBER.length = 17 := rfl
  have hmll : MAGIC_NUMBER_LEN = 17 := rfl
  have hbl : (be4 (send_message_payload m).length).length = 4 := rfl
  have hlf : LENGTH_FIELD_LEN = 4 := rfl
  unfold send_message_frame
  unfold receive_message read_exact
  simp only [List.append_assoc]
  rw [if_neg (by simp only [List.length_append]; omega)]
  rw [List.take_left' (show MAGIC_NUMBER.length = MAGIC_NUMBER_LEN from rfl),
      List.drop_left' (show MAGIC_NUMBER.length = MAGIC_NUMBER_LEN from rfl)]
  dsimp only
  rw [if_neg (by simp)]
  rw [if_neg (by simp only [List.length_append]; omega)]
  rw [List.take_left'
        (show (be4 (send_message_payload m).length).length = LENGTH_FIELD_LEN from rfl),
      List.drop_left'
        (show (be4 (send_message_payload m).length).length = LENGTH_FIELD_LEN from rfl)]
  dsimp only
  rw [intFromBytesBE_be4 _ h32]
  rw [if_pos (by omega)]

theorem send_payload_jobj_ne_zero (fields : List (String × JVal)) :
    (send_message_payload (.jobj fields)).length ≠ 0 := by
  have hdump : pyJsonDumpDefault (.jobj fields) =
      "\x7b" ++
        joinSep ", " ((pyJsonDumpFields ", " ": " false fields).map
          (fun p => pyJsonQuote p.1 ++ ": " ++ p.2)) ++ "\x7d" := rfl
  show (utf8Encode (pyJsonDumpDefault (.jobj fields))).length ≠ 0
  rw [hdump, utf8Encode_append, utf8Encode_append]
  simp only [List.length_append]
  have h1 : (utf8Encode "\x7b").length = 1 := rfl
  omega

theorem receiveMany_frames (loadsBytes : List Nat → Option JVal) :
    ∀ msgs : List JVal,
      (∀ m ∈ msgs, ∃ fields, m = JVal.jobj fields) →
      (∀ m ∈ msgs, loadsBytes (send_message_payload m) = some m) →
      (∀ m ∈ msgs, (send_message_payload m).length ≤ MAX_ALLOWED_PAYLOAD_SIZE) →
      receiveMany loadsBytes msgs.length (framesConcat msgs) = .ok (msgs, []) := by
  intro msgs
  induction msgs with
  | nil => intro _ _ _; rfl
  | cons m ms ih =>
    intro hobj hload hsz
    have hmnz : (send_message_payload m).length ≠ 0 := by
      obtain ⟨fields, hf⟩ := hobj m (List.mem_cons_self _ _)
      rw [hf]
      exact send_payload_jobj_ne_zero fields
    have hfc : framesConcat (m :: ms) = send_message_frame m ++ framesConcat ms := rfl
    show receiveMany loadsBytes (ms.length + 1) (framesConcat (m :: ms)) = _
    rw [hfc]
    simp only [receiveMany,
      receive_message_frame loadsBytes m (framesConcat ms)
        (hload m (List.mem_cons_self _ _)) (hsz m (List.mem_cons_self _ _)) hmnz,
      ih (fun x hx => hobj x (List.mem_cons_of_mem _ hx))
        (fun x hx => hload x (List.mem_cons_of_mem _ hx))
        (fun x hx => hsz x (List.mem_cons_of_mem _ hx))]

/-- C7 (amended): the framed transport is length-framed and magic-aligned:
for any `json.loads` behaviour that inverts `json.dumps` on the sent
JSON-object messages, and provided each encoded payload fits the receiver's
`MAX_ALLOWED_PAYLOAD_SIZE` bound of 10 MiB, feeding the concatenation of the
frames produced by `send_message` through repeated `receive_message` calls
yields exactly the original message sequence with nothing left over; and any
stream whose first 17 bytes differ from the magic tag makes
`receive_message` raise the `ValueError` protocol error. -/
theorem c7_framed_transport (loadsBytes : List Nat → Option JVal)
    (msgs : List JVal)
    (hobj : ∀ m ∈ msgs, ∃ fields, m = JVal.jobj fields)
    (hload : ∀ m ∈ msgs, loadsBytes (send_message_payload m) = some m)
    (hsz : ∀ m ∈ msgs, (send_message_payload m).length ≤ MAX_ALLOWED_PAYLOAD_SIZE)
    (s : List Nat) (h17 : 17 ≤ s.length) (hmagic : s.take 17 ≠ MAGIC_NUMBER) :
    receiveMany loadsBytes msgs.length (framesConcat msgs) = .ok (msgs, []) ∧
    receive_message loadsBytes s = .error .valueError :=
  ⟨receiveMany_frames loadsBytes msgs hobj hload hsz,
   receive_message_bad_magic loadsBytes s h17 hmagic⟩

theorem c7_witness :
    receiveMany loadsPing 1 (framesConcat [pingMsgEx]) = .ok ([pingMsgEx], []) ∧
    receive_message loadsPing (List.replicate 17 0) = .error .valueError := by
  have h := c7_framed_transport loadsPing [pingMsgEx]
    (by intro m hm; rw [List.mem_singleton.mp hm]; exact ⟨_, rfl⟩)
    (by
      intro m hm
      rw [List.mem_singleton.mp hm]
      unfold loadsPing
      rw [if_pos rfl])
    (by
      intro m hm
      rw [List.mem_singleton.mp hm]
      decide)
    (List.replicate 17 0) (by decide) (by decide)
  exact h

theorem framesConcat_cons (m : JVal) (ms : List JVal) :
    framesConcat (m :: ms) = send_message_frame m ++ framesConcat ms := rfl

theorem framesConcat_nil : framesConcat [] = [] := rfl

theorem utf8_escape_replicate_a (n : Nat) :
    (utf8Encode (concatStrings
      ((List.replicate n 'a').map pyJsonEscapeChar))).length = n := by
  induction n with
  | zero => rfl
  | succ n ih =>
    rw [List.replicate_succ, List.map_cons]
    show (utf8Encode (pyJsonEscapeChar 'a' ++ concatStrings
      ((List.replicate n 'a').map pyJsonEscapeChar))).length = n + 1
    rw [utf8Encode_append, List.length_append, ih]
    have h1 : (utf8Encode (pyJsonEscapeChar 'a')).length = 1 := rfl
    omega

theorem send_payload_length_bigMsg :
    (send_message_payload bigMsgEx).length = 10485769 := by
  have hdump : pyJsonDumpDefault bigMsgEx =
      "\x7b" ++ (pyJsonQuote "a" ++ ": " ++ pyJsonQuote bigA) ++ "\x7d" := rfl
  have hq : pyJsonQuote bigA =
      "\"" ++ concatStrings ((List.replicate 10485760 'a').map pyJsonEscapeChar) ++
        "\"" := rfl
  show (utf8Encode (pyJsonDumpDefault bigMsgEx)).length = 10485769
  rw [hdump, hq]
  rw [utf8Encode_append, utf8Encode_append, utf8Encode_append,
      utf8Encode_append, utf8Encode_append, utf8Encode_append]
  simp only [List.length_append]
  rw [utf8_escape_replicate_a]
  have c1 : (utf8Encode "\x7b").length = 1 := rfl
  have c2 : (utf8Encode "\x7d").length = 1 := rfl
  have c3 : (utf8Encode (pyJsonQuote "a")).length = 3 := rfl
  have c4 : (utf8Encode ": ").length = 2 := rfl
  have c5 : (utf8Encode "\"").length = 1 := rfl
  omega

theorem receiveMany_one_oversized (loadsBytes : List Nat → Option JVal)
    (m : JVal)
    (hbig : MAX_ALLOWED_PAYLOAD_SIZE < (send_message_payload m).length)
    (h32 : (send_message_payload m).length < 4294967296) :
    receiveMany loadsBytes 1 (framesConcat [m]) = .error .valueError := by
  rw [framesConcat_cons, framesConcat_nil]
  simp only [receiveMany, receive_message_oversized loadsBytes m [] hbig h32]

/-- C7 counterexample: for the concrete JSON-object message
`{"a": "a" * 10485760}` (payload 10485769 bytes, above the receiver's 10-MiB
bound) with a loads function that does invert dumps on it, sending the frame
and receiving it back yields the `ValueError` protocol error instead of the
original message, so the round trip fails without the payload-size bound. -/
theorem c7_counterexample :
    (∀ m ∈ [bigMsgEx], ∃ fields, m = JVal.jobj fields) ∧
    (∀ m ∈ [bigMsgEx], loadsBig (send_message_payload m) = some m) ∧
    receiveMany loadsBig 1 (framesConcat [bigMsgEx]) = .error .valueError ∧
    receiveMany loadsBig 1 (framesConcat [bigMsgEx]) ≠ .ok ([bigMsgEx], []) := by
  have hlen := send_payload_length_bigMsg
  have hmax : MAX_ALLOWED_PAYLOAD_SIZE = 10485760 := rfl
  have hmany : receiveMany loadsBig 1 (framesConcat [bigMsgEx]) =
      .error .valueError :=
    receiveMany_one_oversized loadsBig bigMsgEx
      (by rw [hlen]; omega) (by rw [hlen]; omega)
  refine ⟨?_, ?_, hmany, ?_⟩
  · intro m hm
    rw [List.mem_singleton.mp hm]
    exact ⟨_, rfl⟩
  · intro m hm
    rw [List.mem_singleton.mp hm]
    unfold loadsBig
    rw [if_pos rfl]
  · intro hcon
    rw [hmany] at hcon
    cases hcon

/-- C8: transitions of the network mining lock. A local `request_mining_lock`
returns true, records this node as holder, starts the 600-second timer and
broadcasts MINING_START exactly when the lock was free, and otherwise returns
false with the state unchanged and nothing broadcast; MINING_START from peer P
(`acquire_mining_lock_from_peer`) sets holder = P and resets the timer when the
lock is free or already held by P, and leaves the state unchanged when held by
another peer; MINING_FINISH from peer P (`handle_mining_finish`) releases the
lock when P is the current holder of the busy lock and is otherwise ignored. -/
theorem c8_mining_lock_transitions (self_id peer_id : String) (st : LockState) :
    (¬ st.in_progress →
      request_mining_lock self_id st =
        (true, ⟨true, some self_id, some 600⟩, [.MINING_START])) ∧
    (st.in_progress → request_mining_lock self_id st = (false, st, [])) ∧
    ((¬ st.in_progress ∨ st.holder = some peer_id) →
      acquire_mining_lock_from_peer peer_id st = ⟨true, some peer_id, some 600⟩) ∧
    (st.in_progress ∧ st.holder ≠ some peer_id →
      acquire_mining_lock_from_peer peer_id st = st) ∧
    (st.in_progress ∧ st.holder = some peer_id →
      handle_mining_finish peer_id st = ⟨false, none, none⟩) ∧
    (¬ (st.in_progress ∧ st.holder = some peer_id) →
      handle_mining_finish peer_id st = st) ∧
    MINING_LOCK_TIMEOUT = 600 := by
  refine ⟨?_, ?_, ?_, ?_, ?_, ?_, rfl⟩
  · intro h
    simp [request_mining_lock, h, MINING_LOCK_TIMEOUT]
  · intro h
    simp [request_mining_lock, h]
  · intro h
    have hnot : ¬ (st.in_progress ∧ st.holder ≠ some peer_id) := by tauto
    simp [acquire_mining_lock_from_peer, hnot, MINING_LOCK_TIMEOUT]
  · intro h
    simp [acquire_mining_lock_from_peer, h]
  · intro h
    simp [handle_mining_finish, h, release_mining_lock, h.1]
  · intro h
    simp [handle_mining_finish, h]

/-- Witness for C8 at concrete lock states: a fresh lock, a lock held by this
node, and locks held by peers "p" and "q". -/
theorem c8_witness :
    request_mining_lock "self" ⟨false, none, none⟩ =
      (true, ⟨true, some "self", some 600⟩, [.MINING_START]) ∧
    request_mining_lock "self" ⟨true, some "p", some 600⟩ =
      (false, ⟨true, some "p", some 600⟩, []) ∧
    acquire_mining_lock_from_peer "p" ⟨false, none, none⟩ =
      ⟨true, some "p", some 600⟩ ∧
    acquire_mining_lock_from_peer "p" ⟨true, some "q", some 600⟩ =
      ⟨true, some "q", some 600⟩ ∧
    handle_mining_finish "p" ⟨true, some "p", some 600⟩ = ⟨false, none, none⟩ ∧
    handle_mining_finish "p" ⟨true, some "q", some 600⟩ =
      ⟨true, some "q", some 600⟩ :=
  ⟨(c8_mining_lock_transitions "self" "p" ⟨false, none, none⟩).1 (by decide),
   (c8_mining_lock_transitions "self" "p" ⟨true, some "p", some 600⟩).2.1
     (by decide),
   (c8_mining_lock_transitions "self" "p" ⟨false, none, none⟩).2.2.1
     (Or.inl (by decide)),
   (c8_mining_lock_transitions "self" "p" ⟨true, some "q", some 600⟩).2.2.2.1
     (by decide),
   (c8_mining_lock_transitions "self" "p" ⟨true, some "p", some 600⟩).2.2.2.2.1
     (by decide),
   (c8_mining_lock_transitions "self" "p" ⟨true, some "q", some 600⟩).2.2.2.2.2.1
     (by decide)⟩
